import Mathlib

/-
Verification of the SlipDayTracker core (CountSlips.py): identity
extraction, state reconciliation, slip accounting and persistence.

The Python code is shallowly embedded:
- Python strings are Lean `String`; the handful of `str` methods the code
  uses (strip, lower, split, endswith, isdigit) are reimplemented
  structurally over `String.data` so that every definition evaluates by
  kernel reduction.  Semantics follow CPython on the character sets the
  program actually handles (ASCII; unicode-only differences of
  `str.lower` / `str.isdigit` are out of scope).
- Python dicts are insertion-ordered association lists
  `List (String × _)` with get / insert-or-update helpers (`dictGet`,
  `dictInsert`), except for the occurrence counters and the two
  dictionaries returned by the CSV reader, which are only ever read
  through `.get` and are therefore modelled as functions.
- Python sets are `List String` read through membership only.
- The `pandas` dataframe boundary is modelled as a list of rows, each
  carrying the string rendering of its `Student` cell, its
  `SIS User ID` cell and its attendance-column cells (a missing cell
  renders as the string `nan`, as `str()` of a pandas NaN does).
- Non-negative integer quantities (`used`, `attendance_confirmed`,
  `earned`) are `Nat`.
-/

/-! ## Python string primitives (over `String.data`) -/

/-- The six ASCII whitespace characters stripped by Python `str.strip()`. -/
def pyIsSpace (c : Char) : Bool :=
  c = ' ' || c = '\t' || c = '\n' || c = '\r' || c = '\x0b' || c = '\x0c'

/-- Python `s.strip()`. -/
def pyStrip (s : String) : String :=
  String.mk (((s.data.dropWhile pyIsSpace).reverse.dropWhile pyIsSpace).reverse)

/-- ASCII lower-casing of one character, as Python `str.lower` acts on ASCII. -/
def pyLowerChar (c : Char) : Char :=
  if 'A' ≤ c && c ≤ 'Z' then Char.ofNat (c.toNat + 32) else c

/-- Python `s.lower()` (ASCII fragment). -/
def pyLower (s : String) : String := String.mk (s.data.map pyLowerChar)

/-- Helper for `pySplitWs`: accumulates the current token (reversed). -/
def splitWsAux : List Char → List Char → List String
  | [], acc => if acc = [] then [] else [String.mk acc.reverse]
  | c :: cs, acc =>
    if pyIsSpace c then
      (if acc = [] then splitWsAux cs [] else String.mk acc.reverse :: splitWsAux cs [])
    else splitWsAux cs (c :: acc)

/-- Python `s.split()` with no arguments: split on whitespace runs, no empties. -/
def pySplitWs (s : String) : List String := splitWsAux s.data []

/-- Split a character list at its first comma, if any: Python `s.split(comma, 1)`. -/
def breakAtComma : List Char → Option (List Char × List Char)
  | [] => none
  | c :: cs =>
    if c = ',' then some ([], cs)
    else
      match breakAtComma cs with
      | none => none
      | some (a, b) => some (c :: a, b)

/-- Python `s.isdigit()` on the ASCII fragment: nonempty and all digits. -/
def pyIsDigit (s : String) : Bool := !s.data.isEmpty && s.data.all Char.isDigit

/-! ## String ordering (Python code-point comparison) -/

/-- Python `<` on characters: code-point comparison. -/
def charLt (a b : Char) : Bool := a.toNat < b.toNat

/-- Python `<` on strings: lexicographic code-point comparison. -/
def lexLt : List Char → List Char → Bool
  | _, [] => false
  | [], _ :: _ => true
  | a :: as, b :: bs => if charLt a b then true else if charLt b a then false else lexLt as bs

/-- Strict string comparison, as Python compares the components of sort-key tuples. -/
def strLtB (a b : String) : Bool := lexLt a.data b.data

/-! ## Configuration (CountSlips.py lines 61-74) -/

/-- Attendance cell values that count as confirmed attendance. -/
def CONFIRMED_ATTENDANCE_VALUES : List String := ["1", "1.0", "1.00", "1.000", "1.0000", "EX"]

/-- How many attendances are required to earn one slip day. -/
def ATTENDANCES_PER_SLIP : Nat := 5

/-! ## Data model (CountSlips.py lines 80-108) -/

/-- Per-student record (dataclass `StudentState`). -/
structure StudentState where
  key : String
  name : String
  student_id : String := ""
  tracked : Bool := true
  used : Nat := 0
  notes : String := ""
  dropped : Bool := false
  attendance_confirmed : Nat := 0
  earned : Nat := 0
deriving DecidableEq

/-- Property `StudentState.available`: `max(0, earned - used)` (truncated Nat subtraction). -/
def StudentState.available (st : StudentState) : Nat := st.earned - st.used

/-- Persisted UI state plus per-student overrides (dataclass `SaveState`).
`students` models the insertion-ordered Python dict. -/
structure SaveState where
  roster_keys_in_order : List String := []
  students : List (String × StudentState) := []
  last_csv_name : String := ""
deriving DecidableEq

/-! ## Insertion-ordered dict helpers -/

/-- Python `d.get(k)`: value of the (unique) entry with key `k`, if present. -/
def dictGet {β : Type} : List (String × β) → String → Option β
  | [], _ => none
  | (k', v) :: rest, k => if k' = k then some v else dictGet rest k

/-- Python `d[k] = v`: update the entry in place if the key exists, else append. -/
def dictInsert {β : Type} : List (String × β) → String → β → List (String × β)
  | [], k, v => [(k, v)]
  | (k', v') :: rest, k, v =>
    if k' = k then (k, v) :: rest else (k', v') :: dictInsert rest k v

/-! ## CSV parsing (`read_canvas_gradebook_csv`, lines 125-238)

The dataframe boundary: one `CsvRow` per dataframe row, carrying the
string renderings of the cells the function reads.  The `Student`-column
presence check and the attendance-column detection are structural
preconditions raised before this pipeline runs and are not modelled. -/

/-- One parsed CSV row: `str()` of the `Student` cell, of the `SIS User ID`
cell (the string `nan` when the cell is missing/NaN), and of each
attendance-column cell in column order. -/
structure CsvRow where
  student : String
  sisUserId : String
  attendanceCells : List String
deriving DecidableEq

/-- Display metadata stored per key: the row dict with fields `name` and `student_id`. -/
structure MetaEntry where
  name : String
  student_id : String
deriving DecidableEq

/-- `is_real_student` (lines 154-163): filter out blank, NaN and aggregate rows. -/
def is_real_student (s : String) : Bool :=
  let t := pyStrip s
  if t = "" then false
  else
    let tl := pyLower t
    !(tl = "nan" || tl = "points possible")

/-- `normalize_name` (lines 167-173): rewrite a Last-comma-First name to First-Last. -/
def normalize_name (raw : String) : String :=
  let s := pyStrip raw
  match breakAtComma s.data with
  | none => s
  | some (a, b) =>
    let p0 := pyStrip (String.mk a)
    let p1 := pyStrip (String.mk b)
    if p1 ≠ "" && p0 ≠ "" then pyStrip (p1 ++ " " ++ p0) else s

/-- `normalize_sis` (lines 181-189): strip, blank out NaN, drop a trailing
dot-zero float artifact when the remainder is all digits. -/
def normalize_sis (raw : String) : String :=
  let sid := pyStrip raw
  let sid := if pyLower sid = "nan" then "" else sid
  match sid.data.reverse with
  | '0' :: '.' :: rest =>
    if pyIsDigit (String.mk rest.reverse) then String.mk rest.reverse else sid
  | _ => sid

/-- The normalized name and normalized SIS id of a row (`name`, `sid` in the
key-generation loop, lines 190-192; `sid` is forced empty when the CSV has
no `SIS User ID` column). -/
def rowKeyFields (hasSis : Bool) (r : CsvRow) : String × String :=
  (normalize_name r.student, if hasSis then normalize_sis r.sisUserId else "")

/-- The key-generation pass (lines 190-199): assign each retained row its
stable key, using a per-name occurrence counter for rows without an id.
The attendance-counting pass (lines 220-228) re-derives keys with a fresh
counter by the identical rule, so it is modelled by this same function. -/
def assignKeys (hasSis : Bool) : List CsvRow → (String → Nat) → List (String × CsvRow)
  | [], _ => []
  | r :: rest, occ =>
    if (rowKeyFields hasSis r).2 ≠ "" then
      ("sid:" ++ (rowKeyFields hasSis r).2, r) :: assignKeys hasSis rest occ
    else
      ("name:" ++ (rowKeyFields hasSis r).1 ++ "#" ++
          toString (occ (rowKeyFields hasSis r).1 + 1), r) ::
        assignKeys hasSis rest
          (Function.update occ (rowKeyFields hasSis r).1 (occ (rowKeyFields hasSis r).1 + 1))

/-- The key-generation pass restated on the (name, sid) pairs of the
retained rows; `assignKeys` depends on a row only through these two
fields, so the two functions coincide (lemma `assignKeys_pairKeyed`).
Output triples are (key, name, sid). -/
def pairKeyed : List (String × String) → (String → Nat) → List (String × String × String)
  | [], _ => []
  | p :: rest, occ =>
    if p.2 ≠ "" then ("sid:" ++ p.2, p.1, p.2) :: pairKeyed rest occ
    else
      ("name:" ++ p.1 ++ "#" ++ toString (occ p.1 + 1), p.1, p.2) ::
        pairKeyed rest (Function.update occ p.1 (occ p.1 + 1))

/-- The retained rows (`df_students`, line 164). -/
def retainedRows (rows : List CsvRow) : List CsvRow :=
  rows.filter (fun r => is_real_student r.student)

/-- Keyed retained rows of a snapshot, starting from the empty occurrence counter. -/
def keyedRows (hasSis : Bool) (rows : List CsvRow) : List (String × CsvRow) :=
  assignKeys hasSis (retainedRows rows) (fun _ => 0)

/-- `student_meta` (line 199): key-indexed row metadata; a later row with the
same key overwrites an earlier one, as in the Python dict. -/
def student_meta (hasSis : Bool) (rows : List CsvRow) : String → Option MetaEntry :=
  (keyedRows hasSis rows).foldl
    (fun m p =>
      Function.update m p.1 (some ⟨(rowKeyFields hasSis p.2).1, (rowKeyFields hasSis p.2).2⟩))
    (fun _ => none)

/-- Confirmed-attendance count of one row (lines 229-236): cells whose
stripped rendering is in the confirmed set. -/
def countConfirmed (r : CsvRow) : Nat :=
  r.attendanceCells.countP (fun c => CONFIRMED_ATTENDANCE_VALUES.contains (pyStrip c))

/-- `confirmed_attendance` (lines 218-237): key-indexed confirmed counts. -/
def confirmed_attendance (hasSis : Bool) (rows : List CsvRow) : String → Option Nat :=
  (keyedRows hasSis rows).foldl
    (fun m p => Function.update m p.1 (some (countConfirmed p.2)))
    (fun _ => none)

/-- `last_name_sort_key` (lines 202-208): lowercased final name token, then
the lowercased remaining tokens. -/
def last_name_sort_key (displayName : String) : String × String :=
  let parts := pySplitWs (pyStrip displayName)
  if parts = [] then ("", "")
  else (pyLower (parts.getLastD ""), pyLower (String.intercalate " " parts.dropLast))

/-- The sort key of one roster key (lines 210-216): last-name pair, then
`student_id`, then the key itself. -/
structure SortKey where
  lastName : String
  restName : String
  sid : String
  key : String
deriving DecidableEq

/-- Build the sort key of a roster key from the metadata dict. -/
def sortTuple (meta : String → Option MetaEntry) (k : String) : SortKey :=
  let m := (meta k).getD ⟨"", ""⟩
  let ln := last_name_sort_key m.name
  ⟨ln.1, ln.2, m.student_id, k⟩

/-- Python tuple `<` on sort keys: lexicographic by components. -/
def sortKeyLt (x y : SortKey) : Bool :=
  strLtB x.lastName y.lastName ||
    (x.lastName = y.lastName &&
      (strLtB x.restName y.restName ||
        (x.restName = y.restName &&
          (strLtB x.sid y.sid || (x.sid = y.sid && strLtB x.key y.key)))))

/-- Non-strict tuple comparison used for sorting. -/
def sortKeyLe (x y : SortKey) : Bool := sortKeyLt x y || x = y

/-- The roster ordering relation of line 210: compare keys by their sort tuples. -/
def rosterLe (meta : String → Option MetaEntry) (a b : String) : Bool :=
  sortKeyLe (sortTuple meta a) (sortTuple meta b)

/-- Stable insertion into a sorted list (Python `list.sort` is a stable
ascending sort; with the key itself as final tuple component the ordering
is total and antisymmetric, so any correct sort produces this result). -/
def insertSorted (le : String → String → Bool) (a : String) : List String → List String
  | [] => [a]
  | b :: l => if le a b then a :: b :: l else b :: insertSorted le a l

/-- Stable insertion sort implementing `list.sort(key=...)` of line 210. -/
def sortByLe (le : String → String → Bool) : List String → List String
  | [] => []
  | a :: l => insertSorted le a (sortByLe le l)

/-- `roster_keys_in_order` as returned by `read_canvas_gradebook_csv`
(lines 190-216): generated keys, sorted by the roster ordering. -/
def roster_keys (hasSis : Bool) (rows : List CsvRow) : List String :=
  sortByLe (rosterLe (student_meta hasSis rows)) ((keyedRows hasSis rows).map Prod.fst)

/-! ## Save / load (`load_save` lines 248-289, `save_state` lines 292-309)

The JSON file is modelled at the well-typed level: a record object is a
partial record whose absent fields are `none` (`sdata.get` with a default
is `Option.getD`).  `load_save` below models the successful parse of a
present file; an absent file yields no prior state and an unparsable file
raises, neither of which is reachable from a `SavePayload` value. -/

/-- One persisted student object, all fields optional. -/
structure SavedRecord where
  key : Option String := none
  name : Option String := none
  student_id : Option String := none
  tracked : Option Bool := none
  used : Option Nat := none
  notes : Option String := none
  dropped : Option Bool := none
deriving DecidableEq

/-- The top-level persisted JSON object. -/
structure SavePayload where
  roster_keys_in_order : List String := []
  last_csv_name : String := ""
  students : List (String × SavedRecord) := []
deriving DecidableEq

/-- The stable key recovered for one persisted entry (lines 263-272): the
stored key field, or — legacy saves keyed by name — a key rebuilt from the
stripped id when present, else from the containing map key. -/
def loadKey (p : String × SavedRecord) : String :=
  let key0 := p.2.key.getD ""
  if key0 = "" then
    let sid := pyStrip (p.2.student_id.getD "")
    if sid ≠ "" then "sid:" ++ sid else "name:" ++ p.1 ++ "#1"
  else key0

/-- The `StudentState` rebuilt for one persisted entry (lines 273-283):
absent fields default (`tracked` to true, `used` to 0, `notes` to empty,
`dropped` to false); the derived fields start at the dataclass default 0. -/
def loadRecord (p : String × SavedRecord) : StudentState :=
  { key := loadKey p
    name := p.2.name.getD p.1
    student_id := p.2.student_id.getD ""
    tracked := p.2.tracked.getD true
    used := p.2.used.getD 0
    notes := p.2.notes.getD ""
    dropped := p.2.dropped.getD false
    attendance_confirmed := 0
    earned := 0 }

/-- `load_save` (lines 248-289) on a successfully parsed payload: rebuild
the state entry by entry into the student dict. -/
def load_save (data : SavePayload) : SaveState :=
  { roster_keys_in_order := data.roster_keys_in_order
    last_csv_name := data.last_csv_name
    students := data.students.foldl (fun acc p => dictInsert acc (loadKey p) (loadRecord p)) [] }

/-- The serialized object of one student record (lines 297-305): exactly
the seven persisted fields.  The derived fields `attendance_confirmed` and
`earned` are not written. -/
def savedRecordOf (st : StudentState) : SavedRecord :=
  { key := some st.key
    name := some st.name
    student_id := some st.student_id
    tracked := some st.tracked
    used := some st.used
    notes := some st.notes
    dropped := some st.dropped }

/-- A record with its two derived fields reset to the dataclass default 0,
as `load_save` rebuilds records (it never restores derived fields). -/
def resetDerived (st : StudentState) : StudentState :=
  { key := st.key, name := st.name, student_id := st.student_id, tracked := st.tracked,
    used := st.used, notes := st.notes, dropped := st.dropped,
    attendance_confirmed := 0, earned := 0 }

/-- `save_state` (lines 292-309): serialize roster order, last CSV name and
every record, in dict order. -/
def save_state (state : SaveState) : SavePayload :=
  { roster_keys_in_order := state.roster_keys_in_order
    last_csv_name := state.last_csv_name
    students := state.students.map (fun p => (p.1, savedRecordOf p.2)) }

/-! ## Slip calculation and reconciliation (lines 315-388) -/

/-- `compute_earned` (lines 315-316): integer division by the slip rate. -/
def compute_earned (attendance_confirmed : Nat) : Nat :=
  attendance_confirmed / ATTENDANCES_PER_SLIP

/-- The SIS index built at lines 341-347: for each prior record with a
nonempty stripped id, map that id to the record (later records overwrite). -/
def prior_by_sid (vals : List StudentState) : List (String × StudentState) :=
  vals.foldl
    (fun d pst =>
      if pyStrip pst.student_id = "" then d
      else dictInsert d (pyStrip pst.student_id) pst)
    []

/-- The fallback matching chain of lines 354-361: exact key, then SIS id
(only for a nonempty row id), then unique prior name (only for a nonempty
row name; zero or several candidates match nothing). -/
def matchPrior (priorStudents : List (String × StudentState)) (name sid key : String) :
    Option StudentState :=
  match dictGet priorStudents key with
  | some p => some p
  | none =>
    match (if sid ≠ "" then dictGet (prior_by_sid (priorStudents.map Prod.snd)) sid else none) with
    | some p => some p
    | none =>
      if name ≠ "" then
        match (priorStudents.map Prod.snd).filter (fun p => p.name == name) with
        | [p] => some p
        | _ => none
      else none

/-- The record built for one roster key (lines 349-386): carry the matched
prior's user fields (or defaults), apply the explicit tracked selection if
one was supplied, recompute attendance and earned from the snapshot, and
clamp `used` down to `earned`. -/
def reconcileRecord (priorStudents : List (String × StudentState))
    (selected_tracked : Option (List String)) (attendance_confirmed : String → Option Nat)
    (student_meta : String → Option MetaEntry) (key : String) : StudentState :=
  let m := (student_meta key).getD ⟨"", ""⟩
  let name := m.name
  let sid := m.student_id
  let prev := matchPrior priorStudents name sid key
  let tracked := match prev with | some p => p.tracked | none => false
  let used := match prev with | some p => p.used | none => 0
  let notes := match prev with | some p => p.notes | none => ""
  let dropped := match prev with | some p => p.dropped | none => false
  let tracked := match selected_tracked with | some sel => decide (key ∈ sel) | none => tracked
  let ac := (attendance_confirmed key).getD 0
  let earned := compute_earned ac
  let used := if used > earned then earned else used
  { key := key, name := name, student_id := sid, tracked := tracked,
    used := used, notes := notes, dropped := dropped,
    attendance_confirmed := ac, earned := earned }

/-- The prior student dict, or the empty dict when no prior state exists
(line 338). -/
def priorStudentsOf : Option SaveState → List (String × StudentState)
  | some p => p.students
  | none => []

/-- `reconcile_state_with_csv` (lines 319-388): build the new state for this
run, one record per roster key. -/
def reconcile_state_with_csv (roster_keys_in_order : List String)
    (attendance_confirmed : String → Option Nat) (student_meta : String → Option MetaEntry)
    (prior : Option SaveState) (selected_tracked : Option (List String)) (csv_name : String) :
    SaveState :=
  let priorStudents := priorStudentsOf prior
  { roster_keys_in_order := roster_keys_in_order
    last_csv_name := csv_name
    students := roster_keys_in_order.foldl
      (fun d key =>
        dictInsert d key
          (reconcileRecord priorStudents selected_tracked attendance_confirmed student_meta key))
      [] }

/-! ## UI accounting actions (`do_use`, lines 699-710)

`do_use` refuses (message box, no mutation — the spec's recoverable
`InsufficientCredit`) when the record is dropped or fewer than `n` slip
days are available; otherwise its only effect is `used += n`.  The pure
model returns `none` for a refusal. -/

/-- The accounting core of `do_use`: refuse on a dropped record or on
insufficient availability, else consume `n` slip days. -/
def do_use (st : StudentState) (n : Nat) : Option StudentState :=
  if st.dropped then none
  else if st.available < n then none
  else some { st with used := st.used + n }

/-! ## Helper lemmas: dict semantics -/

theorem dictGet_dictInsert {β : Type} (d : List (String × β)) (k : String) (v : β) (k' : String) :
    dictGet (dictInsert d k v) k' = if k = k' then some v else dictGet d k' := by
  induction d with
  | nil => simp [dictInsert, dictGet]
  | cons p rest ih =>
    obtain ⟨pk, pv⟩ := p
    by_cases h : pk = k
    · subst h
      simp only [dictInsert, if_pos rfl, dictGet]
      by_cases h' : pk = k' <;> simp [dictGet, h']
    · simp only [dictInsert, if_neg h, dictGet, ih]
      by_cases h' : pk = k'
      · subst h'
        have hne' : ¬k = pk := fun hk => h hk.symm
        simp [hne']
      · simp [h']

theorem mem_dictInsert {β : Type} {d : List (String × β)} {k : String} {v : β} :
    ∀ {p : String × β}, p ∈ dictInsert d k v → p ∈ d ∨ p = (k, v) := by
  induction d with
  | nil =>
    intro p h
    simpa [dictInsert] using h
  | cons q rest ih =>
    intro p h
    obtain ⟨qk, qv⟩ := q
    by_cases hq : qk = k
    · subst hq
      simp only [dictInsert, eq_self_iff_true, if_true, List.mem_cons] at h
      simp only [List.mem_cons]
      tauto
    · simp only [dictInsert, if_neg hq, List.mem_cons] at h
      simp only [List.mem_cons]
      rcases h with h | h
      · tauto
      · rcases ih h with h' | h' <;> tauto

theorem keys_dictInsert {β : Type} (d : List (String × β)) (k : String) (v : β) :
    (dictInsert d k v).map Prod.fst =
      if k ∈ d.map Prod.fst then d.map Prod.fst else d.map Prod.fst ++ [k] := by
  induction d with
  | nil => simp [dictInsert]
  | cons q rest ih =>
    obtain ⟨qk, qv⟩ := q
    by_cases hq : qk = k
    · subst hq
      simp [dictInsert]
    · have hkq : k ≠ qk := fun h => hq h.symm
      simp only [dictInsert, if_neg hq, List.map_cons, ih]
      by_cases hk : k ∈ rest.map Prod.fst
      · simp [hk, hkq]
      · simp [hk, hkq]

theorem dictInsert_append {β : Type} (d : List (String × β)) (k : String) (v : β)
    (h : k ∉ d.map Prod.fst) : dictInsert d k v = d ++ [(k, v)] := by
  induction d with
  | nil => simp [dictInsert]
  | cons q rest ih =>
    obtain ⟨qk, qv⟩ := q
    simp only [List.map_cons, List.mem_cons] at h
    push_neg at h
    have h1 : ¬qk = k := fun hq => h.1 hq.symm
    simp [dictInsert, h1, ih h.2]

/-! ## Helper lemmas: the reconciliation fold -/

theorem foldl_dictInsert_get {β : Type} (f : String → β) (roster : List String)
    (d : List (String × β)) (k : String) :
    dictGet (roster.foldl (fun d key => dictInsert d key (f key)) d) k =
      if k ∈ roster then some (f k) else dictGet d k := by
  induction roster generalizing d with
  | nil => simp
  | cons r rest ih =>
    simp only [List.foldl_cons, ih, dictGet_dictInsert, List.mem_cons]
    by_cases hk : k ∈ rest
    · simp [hk]
    · by_cases hr : r = k
      · subst hr
        simp [hk]
      · have hkr : ¬k = r := fun h => hr h.symm
        simp [hk, hr, hkr]

theorem foldl_dictInsert_mem {β : Type} (f : String → β) (roster : List String) :
    ∀ (d : List (String × β)) {p : String × β},
      p ∈ roster.foldl (fun d key => dictInsert d key (f key)) d →
        p ∈ d ∨ (p.1 ∈ roster ∧ p.2 = f p.1) := by
  induction roster with
  | nil =>
    intro d p h
    exact Or.inl h
  | cons r rest ih =>
    intro d p h
    simp only [List.foldl_cons] at h
    rcases ih (dictInsert d r (f r)) h with h' | h'
    · rcases mem_dictInsert h' with h'' | h''
      · exact Or.inl h''
      · subst h''
        exact Or.inr ⟨List.mem_cons_self _ _, rfl⟩
    · exact Or.inr ⟨List.mem_cons_of_mem _ h'.1, h'.2⟩

theorem reconcile_students_get (roster : List String) (att : String → Option Nat)
    (meta : String → Option MetaEntry) (prior : Option SaveState)
    (sel : Option (List String)) (csv : String) {k : String} (hk : k ∈ roster) :
    dictGet (reconcile_state_with_csv roster att meta prior sel csv).students k =
      some (reconcileRecord (priorStudentsOf prior) sel att meta k) := by
  unfold reconcile_state_with_csv
  simp only [foldl_dictInsert_get, hk, if_pos]

theorem reconcile_students_entry (roster : List String) (att : String → Option Nat)
    (meta : String → Option MetaEntry) (prior : Option SaveState)
    (sel : Option (List String)) (csv : String) {p : String × StudentState}
    (h : p ∈ (reconcile_state_with_csv roster att meta prior sel csv).students) :
    p.1 ∈ roster ∧ p.2 = reconcileRecord (priorStudentsOf prior) sel att meta p.1 := by
  unfold reconcile_state_with_csv at h
  rcases foldl_dictInsert_mem _ roster [] h with h' | h'
  · simp at h'
  · exact h'

theorem reconcileRecord_used_le (priorStudents : List (String × StudentState))
    (sel : Option (List String)) (att : String → Option Nat) (meta : String → Option MetaEntry)
    (k : String) :
    (reconcileRecord priorStudents sel att meta k).used ≤
      (reconcileRecord priorStudents sel att meta k).earned := by
  unfold reconcileRecord
  dsimp only
  split <;> omega

/-! ## Claim theorems -/

/-- C1: every record produced by `reconcile_state_with_csv` — for any roster,
prior state and optional tracked selection — satisfies the clamp invariant
`used ≤ earned`. -/
theorem reconcile_used_le_earned (roster : List String) (att : String → Option Nat)
    (meta : String → Option MetaEntry) (prior : Option SaveState)
    (sel : Option (List String)) (csv : String) :
    ∀ p ∈ (reconcile_state_with_csv roster att meta prior sel csv).students,
      p.2.used ≤ p.2.earned := by
  intro p hp
  rcases reconcile_students_entry roster att meta prior sel csv hp with ⟨-, hrec⟩
  rw [hrec]
  exact reconcileRecord_used_le _ _ _ _ _

/-- Witness for C1 at a concrete input: one roster key with 7 confirmed
attendances and no prior state. -/
theorem reconcile_used_le_earned_witness :
    (⟨"k", "k", "", false, 0, "", false, 7, 1⟩ : StudentState).used ≤
      (⟨"k", "k", "", false, 0, "", false, 7, 1⟩ : StudentState).earned :=
  reconcile_used_le_earned ["k"] (fun _ => some 7) (fun k => some ⟨k, ""⟩) none none "c"
    ("k", ⟨"k", "k", "", false, 0, "", false, 7, 1⟩) (by decide)

/-- C6: `do_use` (the UI consume operation) refuses exactly when the record
is dropped or `n` exceeds the available slip days, leaving the record
unchanged (modelled as returning `none`), and on success its only effect is
to increase `used` by `n`. -/
theorem do_use_spec (st : StudentState) (n : Nat) (_hn : 0 < n) :
    (do_use st n = none ↔ (st.dropped = true ∨ st.available < n)) ∧
    (∀ st', do_use st n = some st' → st' = { st with used := st.used + n }) := by
  unfold do_use
  by_cases hd : st.dropped = true
  · constructor
    · simp [hd]
    · intro st' h
      simp [hd] at h
  · rw [if_neg hd]
    by_cases ha : st.available < n
    · constructor
      · simp [ha]
      · intro st' h
        rw [if_pos ha] at h
        cases h
    · constructor
      · simp [ha, hd]
      · intro st' h
        rw [if_neg ha] at h
        exact (Option.some_inj.mp h).symm

/-- Witness for C6, the spec's concrete scenario C: consuming 2 slip days
from a record with `earned = 1`, `used = 0` is refused. -/
theorem do_use_spec_witness :
    do_use ⟨"k", "Jane Doe", "", true, 0, "", false, 5, 1⟩ 2 = none :=
  (do_use_spec ⟨"k", "Jane Doe", "", true, 0, "", false, 5, 1⟩ 2 (by decide)).1.mpr
    (Or.inr (by decide))

/-- C8: `compute_earned` is floor division of the confirmed count by 5, and
is unchanged by one more attendance unless the count is 4 mod 5. -/
theorem compute_earned_spec (c : Nat) :
    compute_earned c = c / 5 ∧ (c % 5 ≠ 4 → compute_earned c = compute_earned (c + 1)) := by
  refine ⟨rfl, fun h => ?_⟩
  unfold compute_earned ATTENDANCES_PER_SLIP
  omega

/-- Witness for C8 at the spec's concrete count 7: one slip day earned, and
an eighth attendance earns nothing more. -/
theorem compute_earned_spec_witness :
    compute_earned 7 = 7 / 5 ∧ compute_earned 7 = compute_earned 8 :=
  ⟨(compute_earned_spec 7).1, (compute_earned_spec 7).2 (by decide)⟩

/-! ## Helper lemmas: dict keys -/

theorem dictGet_isSome {β : Type} (d : List (String × β)) (k : String) :
    (dictGet d k).isSome = true ↔ k ∈ d.map Prod.fst := by
  induction d with
  | nil => simp [dictGet]
  | cons q rest ih =>
    obtain ⟨qk, qv⟩ := q
    by_cases hq : qk = k
    · subst hq
      simp [dictGet]
    · have hq' : ¬k = qk := fun h => hq h.symm
      simp [dictGet, hq, ih, hq']

theorem foldl_dictInsert_mem_pairs {α β : Type} (keyf : α → String) (valf : α → β)
    (l : List α) :
    ∀ (d : List (String × β)) {p : String × β},
      p ∈ l.foldl (fun acc x => dictInsert acc (keyf x) (valf x)) d →
        p ∈ d ∨ ∃ x ∈ l, p = (keyf x, valf x) := by
  induction l with
  | nil =>
    intro d p h
    exact Or.inl h
  | cons a rest ih =>
    intro d p h
    simp only [List.foldl_cons] at h
    rcases ih _ h with h' | h'
    · rcases mem_dictInsert h' with h'' | h''
      · exact Or.inl h''
      · exact Or.inr ⟨a, List.mem_cons_self _ _, h''⟩
    · obtain ⟨x, hx, hp⟩ := h'
      exact Or.inr ⟨x, List.mem_cons_of_mem _ hx, hp⟩

theorem foldl_dictInsert_keys {β : Type} (f : String → β) (roster : List String) :
    ∀ (d : List (String × β)) (k : String),
      k ∈ (roster.foldl (fun d key => dictInsert d key (f key)) d).map Prod.fst ↔
        (k ∈ d.map Prod.fst ∨ k ∈ roster) := by
  intro d k
  rw [← dictGet_isSome, foldl_dictInsert_get]
  by_cases hk : k ∈ roster
  · simp [hk]
  · simp [hk, dictGet_isSome]

theorem foldl_dictInsert_nodup {β : Type} (f : String → β) (roster : List String) :
    ∀ (d : List (String × β)), (d.map Prod.fst).Nodup →
      ((roster.foldl (fun d key => dictInsert d key (f key)) d).map Prod.fst).Nodup := by
  induction roster with
  | nil =>
    intro d h
    exact h
  | cons r rest ih =>
    intro d h
    apply ih
    rw [keys_dictInsert]
    by_cases hr : r ∈ d.map Prod.fst
    · simpa [hr] using h
    · rw [if_neg hr]
      refine List.Nodup.append h (List.nodup_singleton r) ?_
      intro a ha hmem
      simp only [List.mem_singleton] at hmem
      subst hmem
      exact hr ha

theorem filter_key_length_one {β : Type} (l : List (String × β)) (k : String)
    (hnodup : (l.map Prod.fst).Nodup) (hk : k ∈ l.map Prod.fst) :
    (l.filter (fun p => p.1 == k)).length = 1 := by
  induction l with
  | nil => simp at hk
  | cons q rest ih =>
    simp only [List.map_cons, List.nodup_cons] at hnodup
    obtain ⟨hq, hrest⟩ := hnodup
    by_cases hqk : q.1 = k
    · have hnot : k ∉ rest.map Prod.fst := hqk ▸ hq
      have hfil : rest.filter (fun p => p.1 == k) = [] := by
        rw [List.filter_eq_nil_iff]
        intro p hp
        simp only [beq_iff_eq]
        intro hpk
        exact hnot (hpk ▸ List.mem_map_of_mem Prod.fst hp)
      simp [List.filter_cons, hqk, hfil]
    · have hk' : k ∈ rest.map Prod.fst := by
        simp only [List.map_cons, List.mem_cons] at hk
        rcases hk with hk | hk
        · exact absurd hk.symm hqk
        · exact hk
      simp [List.filter_cons, hqk, ih hrest hk']

/-! ## Helper lemmas: reconciliation record fields -/

theorem reconcileRecord_tracked_sel (ps : List (String × StudentState)) (sel : List String)
    (att : String → Option Nat) (meta : String → Option MetaEntry) (k : String) :
    (reconcileRecord ps (some sel) att meta k).tracked = decide (k ∈ sel) := rfl

theorem matchPrior_nil (name sid key : String) : matchPrior [] name sid key = none := by
  unfold matchPrior prior_by_sid
  by_cases hs : sid = "" <;> by_cases hn : name = "" <;> simp [dictGet, hs, hn]

theorem reconcileRecord_nil_tracked (att : String → Option Nat)
    (meta : String → Option MetaEntry) (k : String) :
    (reconcileRecord [] none att meta k).tracked = false := by
  simp [reconcileRecord, matchPrior_nil]

theorem reconcile_keys_mem (roster : List String) (att : String → Option Nat)
    (meta : String → Option MetaEntry) (prior : Option SaveState)
    (sel : Option (List String)) (csv : String) (k : String) :
    k ∈ (reconcile_state_with_csv roster att meta prior sel csv).students.map Prod.fst ↔
      k ∈ roster := by
  unfold reconcile_state_with_csv
  rw [foldl_dictInsert_keys]
  simp

theorem reconcile_keys_nodup (roster : List String) (att : String → Option Nat)
    (meta : String → Option MetaEntry) (prior : Option SaveState)
    (sel : Option (List String)) (csv : String) :
    ((reconcile_state_with_csv roster att meta prior sel csv).students.map Prod.fst).Nodup := by
  unfold reconcile_state_with_csv
  exact foldl_dictInsert_nodup _ roster [] (by simp)

/-! ## Claim C4 -/

/-- C4: when an explicit tracked selection is supplied, every reconciled
record is tracked exactly when its key is in the selection, regardless of
prior state; in particular a one-key selection whose key is on the roster
yields exactly one tracked record. -/
theorem reconcile_tracked_selection (roster : List String) (att : String → Option Nat)
    (meta : String → Option MetaEntry) (prior : Option SaveState) (sel : List String)
    (csv : String) :
    (∀ p ∈ (reconcile_state_with_csv roster att meta prior (some sel) csv).students,
        (p.2.tracked = true ↔ p.1 ∈ sel)) ∧
    (∀ k₀, sel = [k₀] → k₀ ∈ roster →
        ((reconcile_state_with_csv roster att meta prior (some sel) csv).students.filter
            (fun p => p.2.tracked)).length = 1) := by
  constructor
  · intro p hp
    obtain ⟨-, hrec⟩ := reconcile_students_entry roster att meta prior (some sel) csv hp
    rw [hrec, reconcileRecord_tracked_sel]
    exact decide_eq_true_iff
  · intro k₀ hsel hk₀
    subst hsel
    have hcong :
        (reconcile_state_with_csv roster att meta prior (some [k₀]) csv).students.filter
            (fun p => p.2.tracked) =
          (reconcile_state_with_csv roster att meta prior (some [k₀]) csv).students.filter
            (fun p => p.1 == k₀) := by
      apply List.filter_congr
      intro p hp
      obtain ⟨-, hrec⟩ := reconcile_students_entry roster att meta prior (some [k₀]) csv hp
      rw [hrec, reconcileRecord_tracked_sel]
      by_cases h : p.1 = k₀ <;> simp [h]
    rw [hcong]
    exact filter_key_length_one _ k₀
      (reconcile_keys_nodup roster att meta prior (some [k₀]) csv)
      ((reconcile_keys_mem roster att meta prior (some [k₀]) csv k₀).mpr hk₀)

/-- Witness for C4, the spec's concrete scenario D: a one-key selection over
a three-key roster, against a prior state in which every record was
tracked, yields exactly one tracked record. -/
theorem reconcile_tracked_selection_witness :
    ((reconcile_state_with_csv ["sid:4421", "a", "b"] (fun _ => some 0) (fun k => some ⟨k, ""⟩)
        (some ⟨["a"], [("a", ⟨"a", "a", "", true, 0, "", false, 0, 0⟩),
          ("b", ⟨"b", "b", "", true, 0, "", false, 0, 0⟩)], "old"⟩)
        (some ["sid:4421"]) "c").students.filter (fun p => p.2.tracked)).length = 1 :=
  (reconcile_tracked_selection ["sid:4421", "a", "b"] (fun _ => some 0) (fun k => some ⟨k, ""⟩)
      (some ⟨["a"], [("a", ⟨"a", "a", "", true, 0, "", false, 0, 0⟩),
        ("b", ⟨"b", "b", "", true, 0, "", false, 0, 0⟩)], "old"⟩)
      ["sid:4421"] "c").2 "sid:4421" rfl (by decide)

/-! ## Claim C10 -/

/-- C10: a persisted record object lacking its optional user fields loads
with `tracked = true`, `used = 0`, empty `notes` and `dropped = false`
(so a legacy save with no stored tracked flags loads all-tracked), whereas
reconciliation with no prior state starts every record with
`tracked = false`. -/
theorem load_defaults_vs_reconcile_defaults (payload : SavePayload) (roster : List String)
    (att : String → Option Nat) (meta : String → Option MetaEntry) (csv : String)
    (h : ∀ p ∈ payload.students,
      p.2.tracked = none ∧ p.2.used = none ∧ p.2.notes = none ∧ p.2.dropped = none) :
    (∀ q ∈ (load_save payload).students,
        q.2.tracked = true ∧ q.2.used = 0 ∧ q.2.notes = "" ∧ q.2.dropped = false) ∧
    (∀ q ∈ (reconcile_state_with_csv roster att meta none none csv).students,
        q.2.tracked = false) := by
  constructor
  · intro q hq
    unfold load_save at hq
    rcases foldl_dictInsert_mem_pairs loadKey loadRecord payload.students [] hq with h' | h'
    · simp at h'
    · obtain ⟨x, hx, hq'⟩ := h'
      obtain ⟨ht, hu, hn, hd⟩ := h x hx
      rw [hq']
      simp [loadRecord, ht, hu, hn, hd]
  · intro q hq
    obtain ⟨-, hrec⟩ := reconcile_students_entry roster att meta none none csv hq
    rw [hrec]
    exact reconcileRecord_nil_tracked att meta q.1

/-- Witness for C10 at a concrete legacy payload: a record object with no
stored optional fields loads tracked with default adjustments. -/
theorem load_defaults_vs_reconcile_defaults_witness :
    (⟨"name:jane#1", "jane", "", true, 0, "", false, 0, 0⟩ : StudentState).tracked = true ∧
      (⟨"name:jane#1", "jane", "", true, 0, "", false, 0, 0⟩ : StudentState).used = 0 ∧
      (⟨"name:jane#1", "jane", "", true, 0, "", false, 0, 0⟩ : StudentState).notes = "" ∧
      (⟨"name:jane#1", "jane", "", true, 0, "", false, 0, 0⟩ : StudentState).dropped = false :=
  (load_defaults_vs_reconcile_defaults
      ⟨["x"], "c", [("jane", ⟨none, none, none, none, none, none, none⟩)]⟩
      ["k"] (fun _ => none) (fun _ => none) "c" (by decide)).1
    ("name:jane#1", ⟨"name:jane#1", "jane", "", true, 0, "", false, 0, 0⟩) (by decide)

/-! ## Claim C5 -/

theorem loadKey_saved (x : String) (st : StudentState) (h : st.key ≠ "") :
    loadKey (x, savedRecordOf st) = st.key := by
  simp [loadKey, savedRecordOf, h]

theorem loadRecord_saved (x : String) (st : StudentState) (h : st.key ≠ "") :
    loadRecord (x, savedRecordOf st) = resetDerived st := by
  obtain ⟨k, n, s, t, u, no, d, a, e⟩ := st
  simp only [ne_eq] at h
  simp [loadRecord, savedRecordOf, loadKey, resetDerived, h]

theorem load_fold_saved (l : List (String × StudentState)) :
    ∀ (hkeys : ∀ p ∈ l, p.2.key = p.1 ∧ p.1 ≠ "") (_hnodup : (l.map Prod.fst).Nodup)
      (acc : List (String × StudentState)), (∀ k ∈ l.map Prod.fst, k ∉ acc.map Prod.fst) →
      (l.map (fun p => (p.1, savedRecordOf p.2))).foldl
          (fun a q => dictInsert a (loadKey q) (loadRecord q)) acc =
        acc ++ l.map (fun p => (p.1, resetDerived p.2)) := by
  induction l with
  | nil =>
    intro _ _ acc _
    simp
  | cons p rest ih =>
    intro hkeys hnodup acc hacc
    obtain ⟨hpk, hpne⟩ := hkeys p (List.mem_cons_self _ _)
    have hstk : p.2.key ≠ "" := by
      rw [hpk]
      exact hpne
    have hnodup' : (p.1 :: rest.map Prod.fst).Nodup := by simpa using hnodup
    obtain ⟨hhead, htail⟩ := List.nodup_cons.mp hnodup'
    simp only [List.map_cons, List.foldl_cons]
    rw [loadKey_saved _ _ hstk, loadRecord_saved _ _ hstk, hpk]
    rw [dictInsert_append _ _ _ (hacc p.1 (by simp))]
    rw [ih (fun q hq => hkeys q (List.mem_cons_of_mem _ hq)) htail
      (acc ++ [(p.1, resetDerived p.2)])
      (by
        intro k hk
        simp only [List.map_append, List.map_cons, List.map_nil, List.mem_append,
          List.mem_singleton]
        rintro (hka | hka)
        · exact hacc k (List.mem_cons_of_mem _ hk) hka
        · subst hka
          exact hhead hk)]
    simp

/-- C5 counterexample: the round trip is not the identity.  The state below
satisfies the record invariants (`used = 1 ≤ earned = 1`, unique keys,
`earned` derived from `attendance_confirmed = 7`), yet loading what was
saved differs from it, because the derived fields are not persisted and
load resets them to 0. -/
theorem save_load_round_trip_cex :
    load_save (save_state ⟨["k"], [("k", ⟨"k", "Jane Doe", "", true, 1, "", false, 7, 1⟩)], "c"⟩) ≠
      ⟨["k"], [("k", ⟨"k", "Jane Doe", "", true, 1, "", false, 7, 1⟩)], "c"⟩ := by decide

/-- C5 amended: for every state with unique, non-empty keys in which each
record's key field equals its map key, loading what `save_state` wrote
restores the roster order, the last snapshot name and the seven persisted
fields of every record verbatim, while the unpersisted derived fields
`attendance_confirmed` and `earned` restart at 0. -/
theorem save_load_round_trip (s : SaveState)
    (hkeys : ∀ p ∈ s.students, p.2.key = p.1 ∧ p.1 ≠ "")
    (hnodup : (s.students.map Prod.fst).Nodup) :
    load_save (save_state s) =
      { roster_keys_in_order := s.roster_keys_in_order
        students := s.students.map (fun p => (p.1, resetDerived p.2))
        last_csv_name := s.last_csv_name } := by
  unfold load_save save_state
  rw [load_fold_saved s.students hkeys hnodup [] (by simp)]
  simp

/-- Witness for C5 (amended) at a concrete two-record state: the persisted
fields survive the round trip and the derived fields restart at 0. -/
theorem save_load_round_trip_witness :
    load_save (save_state ⟨["k", "sid:7"],
        [("k", ⟨"k", "Jane Doe", "", true, 1, "x", false, 7, 1⟩),
         ("sid:7", ⟨"sid:7", "Al Smith", "7", false, 0, "", true, 3, 0⟩)], "c"⟩) =
      ⟨["k", "sid:7"],
        [("k", ⟨"k", "Jane Doe", "", true, 1, "x", false, 0, 0⟩),
         ("sid:7", ⟨"sid:7", "Al Smith", "7", false, 0, "", true, 0, 0⟩)], "c"⟩ :=
  save_load_round_trip
    ⟨["k", "sid:7"],
      [("k", ⟨"k", "Jane Doe", "", true, 1, "x", false, 7, 1⟩),
       ("sid:7", ⟨"sid:7", "Al Smith", "7", false, 0, "", true, 3, 0⟩)], "c"⟩
    (by decide) (by decide)

/-! ## Claim C3 -/

theorem assignKeys_sid_key (hasSis : Bool) :
    ∀ (rows : List CsvRow) (occ : String → Nat) (p : String × CsvRow),
      p ∈ assignKeys hasSis rows occ → (rowKeyFields hasSis p.2).2 ≠ "" →
        p.1 = "sid:" ++ (rowKeyFields hasSis p.2).2 := by
  intro rows
  induction rows with
  | nil =>
    intro occ p h
    simp [assignKeys] at h
  | cons r rest ih =>
    intro occ p h hne
    by_cases hs : (rowKeyFields hasSis r).2 ≠ ""
    · rw [assignKeys, if_pos hs] at h
      rcases List.mem_cons.mp h with h' | h'
      · rw [h']
      · exact ih occ p h' hne
    · rw [assignKeys, if_neg hs] at h
      rcases List.mem_cons.mp h with h' | h'
      · rw [h'] at hne
        exact absurd hne hs
      · exact ih _ p h' hne

/-- C3 counterexample: the claim names the key prefix `id:`, but the code
(line 194) writes `sid:`.  A snapshot row with SIS id `4421.0` yields the
key `sid:4421`, and no key `id:4421` exists. -/
theorem extractor_sid_key_cex :
    roster_keys true [⟨"Doe, Jane", "4421.0", ["1.00"]⟩] = ["sid:4421"] ∧
      "id:4421" ∉ roster_keys true [⟨"Doe, Jane", "4421.0", ["1.00"]⟩] := by decide

/-- C3 amended: every retained snapshot row with a nonempty normalized
external id (trailing dot-zero stripped, placeholders blanked) is assigned
the key `sid:` followed by that id. -/
theorem extractor_sid_key (hasSis : Bool) (rows : List CsvRow) :
    ∀ p ∈ keyedRows hasSis rows, (rowKeyFields hasSis p.2).2 ≠ "" →
      p.1 = "sid:" ++ (rowKeyFields hasSis p.2).2 :=
  fun p hp => assignKeys_sid_key hasSis (retainedRows rows) (fun _ => 0) p hp

/-- Witness for C3 (amended): a row with raw id `4421.0` gets key `sid:4421`. -/
theorem extractor_sid_key_witness :
    ("sid:4421", (⟨"Doe, Jane", "4421.0", ["1.00"]⟩ : CsvRow)).1 =
      "sid:" ++ (rowKeyFields true ⟨"Doe, Jane", "4421.0", ["1.00"]⟩).2 :=
  extractor_sid_key true [⟨"Doe, Jane", "4421.0", ["1.00"]⟩]
    ("sid:4421", ⟨"Doe, Jane", "4421.0", ["1.00"]⟩) (by decide) (by decide)

/-! ## Claim C7 -/

theorem foldl_dictInsert_congr {β : Type} (f g : String → β) (roster : List String) :
    ∀ d : List (String × β), (∀ k ∈ roster, f k = g k) →
      roster.foldl (fun d key => dictInsert d key (f key)) d =
        roster.foldl (fun d key => dictInsert d key (g key)) d := by
  induction roster with
  | nil =>
    intro d _
    rfl
  | cons r rest ih =>
    intro d h
    simp only [List.foldl_cons]
    rw [h r (List.mem_cons_self _ _), ih _ (fun k hk => h k (List.mem_cons_of_mem _ hk))]

theorem matchPrior_key_hit (d : List (String × StudentState)) (name sid key : String)
    {r : StudentState} (h : dictGet d key = some r) : matchPrior d name sid key = some r := by
  unfold matchPrior
  rw [h]

theorem reconcileRecord_of_match (d : List (String × StudentState)) (att : String → Option Nat)
    (meta : String → Option MetaEntry) (k : String) (r : StudentState)
    (hm : matchPrior d ((meta k).getD ⟨"", ""⟩).name ((meta k).getD ⟨"", ""⟩).student_id k =
      some r) :
    reconcileRecord d none att meta k =
      { key := k, name := ((meta k).getD ⟨"", ""⟩).name
        student_id := ((meta k).getD ⟨"", ""⟩).student_id, tracked := r.tracked
        used := if r.used > compute_earned ((att k).getD 0) then
            compute_earned ((att k).getD 0)
          else r.used
        notes := r.notes, dropped := r.dropped
        attendance_confirmed := (att k).getD 0
        earned := compute_earned ((att k).getD 0) } := by
  simp only [reconcileRecord]
  rw [hm]

/-- C7: reconciling a reconciled state again, against the same ordered keys,
counts and metadata and with no explicit tracked selection, reproduces that
state field for field. -/
theorem reconcile_idempotent (roster : List String) (att : String → Option Nat)
    (meta : String → Option MetaEntry) (prior : Option SaveState)
    (sel : Option (List String)) (csv : String) :
    reconcile_state_with_csv roster att meta
        (some (reconcile_state_with_csv roster att meta prior sel csv)) none csv =
      reconcile_state_with_csv roster att meta prior sel csv := by
  have hcong : ∀ k ∈ roster,
      reconcileRecord (reconcile_state_with_csv roster att meta prior sel csv).students
          none att meta k =
        reconcileRecord (priorStudentsOf prior) sel att meta k := by
    intro k hk
    have hget := reconcile_students_get roster att meta prior sel csv hk
    have hm := matchPrior_key_hit
      (reconcile_state_with_csv roster att meta prior sel csv).students
      ((meta k).getD ⟨"", ""⟩).name ((meta k).getD ⟨"", ""⟩).student_id k hget
    rw [reconcileRecord_of_match _ att meta k _ hm]
    have hle : (reconcileRecord (priorStudentsOf prior) sel att meta k).used ≤
        compute_earned ((att k).getD 0) :=
      reconcileRecord_used_le (priorStudentsOf prior) sel att meta k
    rw [if_neg (Nat.not_lt.mpr hle)]
    rfl
  have hstu : (reconcile_state_with_csv roster att meta
        (some (reconcile_state_with_csv roster att meta prior sel csv)) none csv).students =
      (reconcile_state_with_csv roster att meta prior sel csv).students := by
    show roster.foldl
        (fun d key => dictInsert d key
          (reconcileRecord (reconcile_state_with_csv roster att meta prior sel csv).students
            none att meta key)) [] =
      roster.foldl
        (fun d key => dictInsert d key
          (reconcileRecord (priorStudentsOf prior) sel att meta key)) []
    exact foldl_dictInsert_congr _ _ roster [] hcong
  show (⟨roster, (reconcile_state_with_csv roster att meta
        (some (reconcile_state_with_csv roster att meta prior sel csv)) none csv).students,
      csv⟩ : SaveState) =
    ⟨roster, (reconcile_state_with_csv roster att meta prior sel csv).students, csv⟩
  rw [hstu]

/-! ## Claim C2 -/

theorem sidFold_get (s : String) (hs : s ≠ "") :
    ∀ (vals : List StudentState) (d : List (String × StudentState)),
      dictGet (vals.foldl
          (fun d pst =>
            if pyStrip pst.student_id = "" then d
            else dictInsert d (pyStrip pst.student_id) pst) d) s =
        match vals.reverse.find? (fun p => pyStrip p.student_id == s) with
        | some p => some p
        | none => dictGet d s := by
  intro vals
  induction vals with
  | nil =>
    intro d
    simp
  | cons p rest ih =>
    intro d
    simp only [List.foldl_cons, ih, List.reverse_cons, List.find?_append]
    cases hf : rest.reverse.find? (fun q => pyStrip q.student_id == s) with
    | some q => simp
    | none =>
      by_cases hp : pyStrip p.student_id = ""
      · have hes : ("" == s) = false := by
          simp only [beq_eq_false_iff_ne, ne_eq]
          exact fun h => hs h.symm
        simp [hp, List.find?, hes]
      · rw [if_neg hp, dictGet_dictInsert]
        by_cases hpe : pyStrip p.student_id = s
        · simp [List.find?, hpe]
        · have : ¬(pyStrip p.student_id == s) = true := by simpa using hpe
          simp [List.find?, this, hpe]

theorem prior_by_sid_get_some (vals : List StudentState) (s : String) (hs : s ≠ "")
    {p : StudentState} (h : dictGet (prior_by_sid vals) s = some p) :
    p ∈ vals ∧ pyStrip p.student_id = s := by
  unfold prior_by_sid at h
  rw [sidFold_get s hs vals []] at h
  cases hf : vals.reverse.find? (fun q => pyStrip q.student_id == s) with
  | none =>
    rw [hf] at h
    simp [dictGet] at h
  | some q =>
    rw [hf] at h
    simp only [Option.some_inj] at h
    subst h
    refine ⟨List.mem_reverse.mp (List.mem_of_find?_eq_some hf), ?_⟩
    have := List.find?_some hf
    simpa using this

theorem prior_by_sid_get_none (vals : List StudentState) (s : String) (hs : s ≠ "") :
    dictGet (prior_by_sid vals) s = none ↔ ∀ p ∈ vals, pyStrip p.student_id ≠ s := by
  unfold prior_by_sid
  rw [sidFold_get s hs vals []]
  cases hf : vals.reverse.find? (fun q => pyStrip q.student_id == s) with
  | none =>
    simp only [dictGet]
    constructor
    · intro _ p hp hps
      have := List.find?_eq_none.mp hf p (List.mem_reverse.mpr hp)
      simp [hps] at this
    · intro _
      trivial
  | some q =>
    simp only
    constructor
    · intro h
      cases h
    · intro h
      have hq := List.find?_some hf
      have hqm := List.mem_reverse.mp (List.mem_of_find?_eq_some hf)
      simp only [beq_iff_eq] at hq
      exact absurd hq (h q hqm)

theorem reconcileRecord_of_no_match (d : List (String × StudentState))
    (att : String → Option Nat) (meta : String → Option MetaEntry) (k : String)
    (hm : matchPrior d ((meta k).getD ⟨"", ""⟩).name ((meta k).getD ⟨"", ""⟩).student_id k =
      none) :
    reconcileRecord d none att meta k =
      ⟨k, ((meta k).getD ⟨"", ""⟩).name, ((meta k).getD ⟨"", ""⟩).student_id, false, 0, "",
        false, (att k).getD 0, compute_earned ((att k).getD 0)⟩ := by
  simp only [reconcileRecord]
  rw [hm]
  simp

/-- C2 counterexample: the claim omits that the unique-name fallback (step
3) fires only for a nonempty row name.  Here the roster key has no
metadata, so its row name is empty; exactly one prior record bears that
(empty) name and steps 1-2 fail, so the claim predicts that prior record
(`used = 3`, `notes` nonempty) is adopted; the code instead starts a fresh
record with `used = 0`, `notes` empty. -/
theorem matching_chain_cex :
    dictGet ([("p", (⟨"p", "", "", true, 3, "x", false, 0, 0⟩ : StudentState))] :
        List (String × StudentState)) "k" = none ∧
      ((([("p", (⟨"p", "", "", true, 3, "x", false, 0, 0⟩ : StudentState))] :
          List (String × StudentState)).map Prod.snd).filter
        (fun q => q.name == "")).length = 1 ∧
      dictGet (reconcile_state_with_csv ["k"] (fun _ => some 20) (fun _ => none)
          (some ⟨["p"], [("p", ⟨"p", "", "", true, 3, "x", false, 0, 0⟩)], "old"⟩)
          none "c").students "k" =
        some ⟨"k", "", "", false, 0, "", false, 20, 4⟩ := by decide

/-- C2 amended: per roster key the reconciler matches a prior record by the
first success of (1) exact key equality; (2) if the row id is nonempty, a
prior record whose whitespace-stripped external id equals it; (3) if the
row name is nonempty, the unique prior record bearing that name (zero or
several candidates match nothing); and when all three fail the produced
record starts with `tracked = false`, `used = 0`, empty `notes`,
`dropped = false` (derived fields from the snapshot). -/
theorem reconcile_matching_chain :
    (∀ (priorStudents : List (String × StudentState)) (name sid key : String),
      (∀ p, dictGet priorStudents key = some p →
        matchPrior priorStudents name sid key = some p) ∧
      (dictGet priorStudents key = none → sid ≠ "" →
        (∃ p ∈ priorStudents.map Prod.snd, pyStrip p.student_id = sid) →
        ∃ p, matchPrior priorStudents name sid key = some p ∧
          p ∈ priorStudents.map Prod.snd ∧ pyStrip p.student_id = sid) ∧
      (dictGet priorStudents key = none →
        (sid = "" ∨ ∀ p ∈ priorStudents.map Prod.snd, pyStrip p.student_id ≠ sid) →
        name ≠ "" →
        ∀ p, (priorStudents.map Prod.snd).filter (fun q => q.name == name) = [p] →
          matchPrior priorStudents name sid key = some p) ∧
      (dictGet priorStudents key = none →
        (sid = "" ∨ ∀ p ∈ priorStudents.map Prod.snd, pyStrip p.student_id ≠ sid) →
        (name = "" ∨
          ((priorStudents.map Prod.snd).filter (fun q => q.name == name)).length ≠ 1) →
        matchPrior priorStudents name sid key = none)) ∧
    (∀ (roster : List String) (att : String → Option Nat) (meta : String → Option MetaEntry)
        (prior : Option SaveState) (csv : String) (k : String), k ∈ roster →
      matchPrior (priorStudentsOf prior) ((meta k).getD ⟨"", ""⟩).name
          ((meta k).getD ⟨"", ""⟩).student_id k = none →
      dictGet (reconcile_state_with_csv roster att meta prior none csv).students k =
        some ⟨k, ((meta k).getD ⟨"", ""⟩).name, ((meta k).getD ⟨"", ""⟩).student_id, false, 0,
          "", false, (att k).getD 0, compute_earned ((att k).getD 0)⟩) := by
  constructor
  · intro priorStudents name sid key
    refine ⟨?_, ?_, ?_, ?_⟩
    · intro p h
      unfold matchPrior
      rw [h]
    · intro h1 hsid hex
      unfold matchPrior
      rw [h1]
      rw [if_pos hsid]
      cases hget : dictGet (prior_by_sid (priorStudents.map Prod.snd)) sid with
      | none =>
        obtain ⟨p, hp, hps⟩ := hex
        exact absurd hps ((prior_by_sid_get_none _ sid hsid).mp hget p hp)
      | some q =>
        obtain ⟨hqm, hqs⟩ := prior_by_sid_get_some _ sid hsid hget
        exact ⟨q, rfl, hqm, hqs⟩
    · intro h1 h2 hname p hfil
      unfold matchPrior
      rw [h1]
      have hbr : (if sid ≠ "" then
          dictGet (prior_by_sid (priorStudents.map Prod.snd)) sid else none) = none := by
        rcases h2 with h2 | h2
        · rw [if_neg (by simpa using h2)]
        · by_cases hsid : sid = ""
          · rw [if_neg (by simpa using hsid)]
          · rw [if_pos hsid]
            exact (prior_by_sid_get_none _ sid hsid).mpr h2
      rw [hbr, if_pos hname, hfil]
    · intro h1 h2 h3
      unfold matchPrior
      rw [h1]
      have hbr : (if sid ≠ "" then
          dictGet (prior_by_sid (priorStudents.map Prod.snd)) sid else none) = none := by
        rcases h2 with h2 | h2
        · rw [if_neg (by simpa using h2)]
        · by_cases hsid : sid = ""
          · rw [if_neg (by simpa using hsid)]
          · rw [if_pos hsid]
            exact (prior_by_sid_get_none _ sid hsid).mpr h2
      rw [hbr]
      rcases h3 with h3 | h3
      · rw [if_neg (by simpa using h3)]
      · by_cases hname : name = ""
        · rw [if_neg (by simpa using hname)]
        · rw [if_pos hname]
          cases hfil : (priorStudents.map Prod.snd).filter (fun q => q.name == name) with
          | nil => rfl
          | cons a t =>
            cases t with
            | nil =>
              rw [hfil] at h3
              simp at h3
            | cons b t2 => rfl
  · intro roster att meta prior csv k hk hm
    rw [reconcile_students_get roster att meta prior none csv hk,
      reconcileRecord_of_no_match _ att meta k hm]

/-- Witness for C2 (amended), exercising the unique-name fallback: a prior
record saved under a different key is adopted for a row with the same
nonempty name and no id. -/
theorem reconcile_matching_chain_witness :
    matchPrior [("p", (⟨"p", "Jane Doe", "", true, 2, "n", false, 0, 0⟩ : StudentState))]
        "Jane Doe" "" "name:Jane Doe#1" =
      some ⟨"p", "Jane Doe", "", true, 2, "n", false, 0, 0⟩ :=
  (reconcile_matching_chain.1
      [("p", ⟨"p", "Jane Doe", "", true, 2, "n", false, 0, 0⟩)]
      "Jane Doe" "" "name:Jane Doe#1").2.2.1 (by decide) (Or.inl rfl) (by decide)
    ⟨"p", "Jane Doe", "", true, 2, "n", false, 0, 0⟩ (by decide)

/-! ## Claim C9: string comparison lemmas -/

theorem charLt_inj_of_not {a b : Char} (h1 : charLt a b = false) (h2 : charLt b a = false) :
    a = b := by
  unfold charLt at h1 h2
  simp only [decide_eq_false_iff_not, Nat.not_lt] at h1 h2
  have h3 : a.toNat = b.toNat := Nat.le_antisymm h2 h1
  have := congrArg Char.ofNat h3
  rwa [Char.ofNat_toNat, Char.ofNat_toNat] at this

theorem lexLt_irrefl : ∀ l : List Char, lexLt l l = false := by
  intro l
  induction l with
  | nil => rfl
  | cons c t ih =>
    simp only [lexLt]
    have : charLt c c = false := by
      unfold charLt
      simp
    simp [this, ih]

theorem lexLt_trans :
    ∀ {a b c : List Char}, lexLt a b = true → lexLt b c = true → lexLt a c = true := by
  intro a
  induction a with
  | nil =>
    intro b c h1 h2
    cases b with
    | nil => cases h1
    | cons y bs =>
      cases c with
      | nil => cases h2
      | cons z cs => rfl
  | cons x as ih =>
    intro b c h1 h2
    cases b with
    | nil => cases h1
    | cons y bs =>
      cases c with
      | nil => cases h2
      | cons z cs =>
        simp only [lexLt] at h1 h2 ⊢
        by_cases hxy : charLt x y = true
        · by_cases hyz : charLt y z = true
          · have hxz : charLt x z = true := by
              unfold charLt at hxy hyz ⊢
              simp only [decide_eq_true_iff] at hxy hyz ⊢
              omega
            simp [hxz]
          · by_cases hzy : charLt z y = true
            · simp [hyz, hzy] at h2
            · have hyz' : y = z := charLt_inj_of_not (by simpa using hyz) (by simpa using hzy)
              subst hyz'
              simp [hxy]
        · by_cases hyx : charLt y x = true
          · simp [hxy, hyx] at h1
          · have hxy' : x = y := charLt_inj_of_not (by simpa using hxy) (by simpa using hyx)
            subst hxy'
            have hcc : charLt x x = false := by
              unfold charLt
              simp
            simp only [hcc, Bool.false_eq_true, if_false] at h1
            by_cases hxz : charLt x z = true
            · simp [hxz]
            · by_cases hzx : charLt z x = true
              · simp [hxz, hzx] at h2
              · have hxz' : x = z := charLt_inj_of_not (by simpa using hxz) (by simpa using hzx)
                subst hxz'
                simp only [hcc, Bool.false_eq_true, if_false] at h2 ⊢
                exact ih h1 h2
  
theorem lexLt_trichot : ∀ a b : List Char, lexLt a b = true ∨ a = b ∨ lexLt b a = true := by
  intro a
  induction a with
  | nil =>
    intro b
    cases b with
    | nil => exact Or.inr (Or.inl rfl)
    | cons y bs => exact Or.inl rfl
  | cons x as ih =>
    intro b
    cases b with
    | nil => exact Or.inr (Or.inr rfl)
    | cons y bs =>
      by_cases hxy : charLt x y = true
      · left
        simp [lexLt, hxy]
      · by_cases hyx : charLt y x = true
        · right; right
          simp [lexLt, hyx]
        · have hxy' : x = y := charLt_inj_of_not (by simpa using hxy) (by simpa using hyx)
          subst hxy'
          rcases ih bs with h | h | h
          · left
            simp [lexLt, hxy, h]
          · subst h
            exact Or.inr (Or.inl rfl)
          · right; right
            simp [lexLt, hxy, h]

theorem strLtB_irrefl (s : String) : strLtB s s = false := lexLt_irrefl s.data

theorem strLtB_trans {a b c : String} (h1 : strLtB a b = true) (h2 : strLtB b c = true) :
    strLtB a c = true := lexLt_trans h1 h2

theorem strLtB_trichot (a b : String) : strLtB a b = true ∨ a = b ∨ strLtB b a = true := by
  rcases lexLt_trichot a.data b.data with h | h | h
  · exact Or.inl h
  · exact Or.inr (Or.inl ((String.ext_iff).mpr h))
  · exact Or.inr (Or.inr h)

/-! ## Claim C9: sort-key tuple order -/

theorem sortKeyLt_iff (x y : SortKey) :
    sortKeyLt x y = true ↔
      (strLtB x.lastName y.lastName = true ∨
        (x.lastName = y.lastName ∧
          (strLtB x.restName y.restName = true ∨
            (x.restName = y.restName ∧
              (strLtB x.sid y.sid = true ∨
                (x.sid = y.sid ∧ strLtB x.key y.key = true)))))) := by
  simp [sortKeyLt, Bool.or_eq_true, Bool.and_eq_true, decide_eq_true_iff]

theorem sortKey_ext {x y : SortKey} (h1 : x.lastName = y.lastName)
    (h2 : x.restName = y.restName) (h3 : x.sid = y.sid) (h4 : x.key = y.key) : x = y := by
  cases x
  cases y
  simp_all

theorem sortKeyLt_trans {x y z : SortKey} (hxy : sortKeyLt x y = true)
    (hyz : sortKeyLt y z = true) : sortKeyLt x z = true := by
  rw [sortKeyLt_iff] at hxy hyz ⊢
  rcases hxy with h1 | ⟨e1, h1⟩ <;> rcases hyz with h2 | ⟨e2, h2⟩
  · exact Or.inl (strLtB_trans h1 h2)
  · exact Or.inl (by rw [← e2]; exact h1)
  · exact Or.inl (by rw [e1]; exact h2)
  · refine Or.inr ⟨e1.trans e2, ?_⟩
    rcases h1 with h1 | ⟨f1, h1⟩ <;> rcases h2 with h2 | ⟨f2, h2⟩
    · exact Or.inl (strLtB_trans h1 h2)
    · exact Or.inl (by rw [← f2]; exact h1)
    · exact Or.inl (by rw [f1]; exact h2)
    · refine Or.inr ⟨f1.trans f2, ?_⟩
      rcases h1 with h1 | ⟨g1, h1⟩ <;> rcases h2 with h2 | ⟨g2, h2⟩
      · exact Or.inl (strLtB_trans h1 h2)
      · exact Or.inl (by rw [← g2]; exact h1)
      · exact Or.inl (by rw [g1]; exact h2)
      · exact Or.inr ⟨g1.trans g2, strLtB_trans h1 h2⟩

theorem sortKeyLt_irrefl (x : SortKey) : sortKeyLt x x = false := by
  simp [sortKeyLt, strLtB_irrefl]

theorem sortKeyLt_asymm {x y : SortKey} (h1 : sortKeyLt x y = true)
    (h2 : sortKeyLt y x = true) : False := by
  have h := sortKeyLt_trans h1 h2
  rw [sortKeyLt_irrefl] at h
  cases h

theorem sortKeyLt_trichot (x y : SortKey) :
    sortKeyLt x y = true ∨ x = y ∨ sortKeyLt y x = true := by
  rcases strLtB_trichot x.lastName y.lastName with h1 | h1 | h1
  · exact Or.inl ((sortKeyLt_iff x y).mpr (Or.inl h1))
  · rcases strLtB_trichot x.restName y.restName with h2 | h2 | h2
    · exact Or.inl ((sortKeyLt_iff x y).mpr (Or.inr ⟨h1, Or.inl h2⟩))
    · rcases strLtB_trichot x.sid y.sid with h3 | h3 | h3
      · exact Or.inl ((sortKeyLt_iff x y).mpr (Or.inr ⟨h1, Or.inr ⟨h2, Or.inl h3⟩⟩))
      · rcases strLtB_trichot x.key y.key with h4 | h4 | h4
        · exact Or.inl ((sortKeyLt_iff x y).mpr
            (Or.inr ⟨h1, Or.inr ⟨h2, Or.inr ⟨h3, h4⟩⟩⟩))
        · exact Or.inr (Or.inl (sortKey_ext h1 h2 h3 h4))
        · exact Or.inr (Or.inr ((sortKeyLt_iff y x).mpr
            (Or.inr ⟨h1.symm, Or.inr ⟨h2.symm, Or.inr ⟨h3.symm, h4⟩⟩⟩)))
      · exact Or.inr (Or.inr ((sortKeyLt_iff y x).mpr
          (Or.inr ⟨h1.symm, Or.inr ⟨h2.symm, Or.inl h3⟩⟩)))
    · exact Or.inr (Or.inr ((sortKeyLt_iff y x).mpr (Or.inr ⟨h1.symm, Or.inl h2⟩)))
  · exact Or.inr (Or.inr ((sortKeyLt_iff y x).mpr (Or.inl h1)))

theorem sortKeyLe_iff (x y : SortKey) :
    sortKeyLe x y = true ↔ (sortKeyLt x y = true ∨ x = y) := by
  simp [sortKeyLe]

theorem sortKeyLe_total (x y : SortKey) : sortKeyLe x y = true ∨ sortKeyLe y x = true := by
  rcases sortKeyLt_trichot x y with h | h | h
  · exact Or.inl ((sortKeyLe_iff x y).mpr (Or.inl h))
  · exact Or.inl ((sortKeyLe_iff x y).mpr (Or.inr h))
  · exact Or.inr ((sortKeyLe_iff y x).mpr (Or.inl h))

theorem sortKeyLe_trans {x y z : SortKey} (h1 : sortKeyLe x y = true)
    (h2 : sortKeyLe y z = true) : sortKeyLe x z = true := by
  rw [sortKeyLe_iff] at h1 h2 ⊢
  rcases h1 with h1 | rfl
  · rcases h2 with h2 | rfl
    · exact Or.inl (sortKeyLt_trans h1 h2)
    · exact Or.inl h1
  · exact h2

theorem sortKeyLe_antisymm {x y : SortKey} (h1 : sortKeyLe x y = true)
    (h2 : sortKeyLe y x = true) : x = y := by
  rw [sortKeyLe_iff] at h1 h2
  rcases h1 with h1 | rfl
  · rcases h2 with h2 | rfl
    · exact absurd (sortKeyLt_trans h1 h2) (by simp [sortKeyLt_irrefl])
    · rfl
  · rfl

theorem sortTuple_key (meta : String → Option MetaEntry) (k : String) :
    (sortTuple meta k).key = k := rfl

theorem rosterLe_total (meta : String → Option MetaEntry) (a b : String) :
    rosterLe meta a b = true ∨ rosterLe meta b a = true :=
  sortKeyLe_total (sortTuple meta a) (sortTuple meta b)

theorem rosterLe_trans (meta : String → Option MetaEntry) {a b c : String}
    (h1 : rosterLe meta a b = true) (h2 : rosterLe meta b c = true) :
    rosterLe meta a c = true :=
  sortKeyLe_trans h1 h2

theorem rosterLe_antisymm (meta : String → Option MetaEntry) {a b : String}
    (h1 : rosterLe meta a b = true) (h2 : rosterLe meta b a = true) : a = b := by
  have h := sortKeyLe_antisymm h1 h2
  have := congrArg SortKey.key h
  rwa [sortTuple_key, sortTuple_key] at this

/-! ## Claim C9: insertion sort -/

theorem insertSorted_perm (le : String → String → Bool) (a : String) (l : List String) :
    (insertSorted le a l).Perm (a :: l) := by
  induction l with
  | nil => exact .refl _
  | cons b t ih =>
    unfold insertSorted
    split
    · exact .refl _
    · exact .trans (.cons b ih) (.swap a b t)

theorem sortByLe_perm (le : String → String → Bool) (l : List String) :
    (sortByLe le l).Perm l := by
  induction l with
  | nil => exact .refl _
  | cons a t ih =>
    unfold sortByLe
    exact .trans (insertSorted_perm le a (sortByLe le t)) (.cons a ih)

theorem insertSorted_pairwise (le : String → String → Bool)
    (htot : ∀ a b, le a b = true ∨ le b a = true)
    (htrans : ∀ {a b c}, le a b = true → le b c = true → le a c = true)
    (a : String) (l : List String) (h : l.Pairwise (fun u v => le u v = true)) :
    (insertSorted le a l).Pairwise (fun u v => le u v = true) := by
  induction l with
  | nil => simp [insertSorted]
  | cons b t ih =>
    obtain ⟨hb, ht⟩ := List.pairwise_cons.mp h
    unfold insertSorted
    split
    case isTrue hab =>
      refine List.pairwise_cons.mpr ⟨?_, h⟩
      intro c hc
      rcases List.mem_cons.mp hc with rfl | hc
      · exact hab
      · exact htrans hab (hb c hc)
    case isFalse hab =>
      refine List.pairwise_cons.mpr ⟨?_, ih ht⟩
      intro c hc
      have hc' := (insertSorted_perm le a t).mem_iff.mp hc
      rcases List.mem_cons.mp hc' with rfl | hc'
      · rcases htot c b with h' | h'
        · exact absurd h' hab
        · exact h'
      · exact hb c hc'

theorem sortByLe_pairwise (le : String → String → Bool)
    (htot : ∀ a b, le a b = true ∨ le b a = true)
    (htrans : ∀ {a b c}, le a b = true → le b c = true → le a c = true)
    (l : List String) : (sortByLe le l).Pairwise (fun u v => le u v = true) := by
  induction l with
  | nil => simp [sortByLe]
  | cons a t ih =>
    unfold sortByLe
    exact insertSorted_pairwise le htot htrans a (sortByLe le t) ih

/-! ## Claim C9: the key pass under row permutation -/

theorem pairKeyed_perm {l1 l2 : List (String × String)} (h : l1.Perm l2) :
    ∀ occ : String → Nat, (pairKeyed l1 occ).Perm (pairKeyed l2 occ) := by
  induction h with
  | nil =>
    intro occ
    exact .refl _
  | cons p _ ih =>
    intro occ
    by_cases hp : p.2 ≠ ""
    · simp only [pairKeyed, if_pos hp]
      exact .cons _ (ih occ)
    · simp only [pairKeyed, if_neg hp]
      exact .cons _ (ih _)
  | swap x y l =>
    intro occ
    obtain ⟨x1, x2⟩ := x
    obtain ⟨y1, y2⟩ := y
    by_cases hx : x2 ≠ "" <;> by_cases hy : y2 ≠ ""
    · simp only [pairKeyed, if_pos hx, if_pos hy]
      exact .swap _ _ _
    · simp only [pairKeyed, if_pos hx, if_neg hy]
      exact .swap _ _ _
    · simp only [pairKeyed, if_neg hx, if_pos hy]
      exact .swap _ _ _
    · push_neg at hx hy
      subst hx
      subst hy
      by_cases hxy : y1 = x1
      · subst hxy
        exact .refl _
      · have hyx : x1 ≠ y1 := fun h' => hxy h'.symm
        simp only [pairKeyed, if_neg (by simp : ¬("" : String) ≠ "")]
        rw [Function.update_noteq hyx, Function.update_noteq hxy,
          Function.update_comm hxy]
        exact .swap _ _ _
  | trans _ _ ih1 ih2 =>
    intro occ
    exact (ih1 occ).trans (ih2 occ)

theorem pairKeyed_mem :
    ∀ (l : List (String × String)) (occ : String → Nat) {e : String × String × String},
      e ∈ pairKeyed l occ →
        (e.2.1, e.2.2) ∈ l ∧
          ((e.2.2 ≠ "" ∧ e.1 = "sid:" ++ e.2.2) ∨
            (e.2.2 = "" ∧ ∃ j : Nat, e.1 = "name:" ++ e.2.1 ++ "#" ++ toString j)) := by
  intro l
  induction l with
  | nil =>
    intro occ e h
    simp [pairKeyed] at h
  | cons p rest ih =>
    intro occ e h
    by_cases hp : p.2 ≠ ""
    · simp only [pairKeyed, if_pos hp] at h
      rcases List.mem_cons.mp h with rfl | h'
      · exact ⟨by simp, Or.inl ⟨hp, rfl⟩⟩
      · obtain ⟨hm, hsh⟩ := ih occ h'
        exact ⟨List.mem_cons_of_mem _ hm, hsh⟩
    · simp only [pairKeyed, if_neg hp] at h
      rcases List.mem_cons.mp h with rfl | h'
      · push_neg at hp
        exact ⟨by simp, Or.inr ⟨hp, occ p.1 + 1, rfl⟩⟩
      · obtain ⟨hm, hsh⟩ := ih _ h'
        exact ⟨List.mem_cons_of_mem _ hm, hsh⟩

theorem assignKeys_pairKeyed (hasSis : Bool) :
    ∀ (rows : List CsvRow) (occ : String → Nat),
      (assignKeys hasSis rows occ).map (fun p => (p.1, rowKeyFields hasSis p.2)) =
        pairKeyed (rows.map (rowKeyFields hasSis)) occ := by
  intro rows
  induction rows with
  | nil =>
    intro occ
    rfl
  | cons r rest ih =>
    intro occ
    by_cases hs : (rowKeyFields hasSis r).2 ≠ ""
    · simp only [assignKeys, if_pos hs, List.map_cons, pairKeyed, ih]
    · simp only [assignKeys, if_neg hs, List.map_cons, pairKeyed, ih]

theorem foldl_update_apply {α γ : Type} (keyf : α → String) (valf : α → γ) (l : List α) :
    ∀ (m₀ : String → Option γ) (k : String),
      (l.foldl (fun m x => Function.update m (keyf x) (some (valf x))) m₀) k =
        match l.reverse.find? (fun x => keyf x == k) with
        | some x => some (valf x)
        | none => m₀ k := by
  induction l with
  | nil =>
    intro m₀ k
    simp
  | cons a rest ih =>
    intro m₀ k
    simp only [List.foldl_cons, List.reverse_cons, List.find?_append, ih]
    cases hf : rest.reverse.find? (fun x => keyf x == k) with
    | some q => simp
    | none =>
      by_cases ha : keyf a = k
      · simp [List.find?, ha, Function.update_apply]
      · have h1 : (keyf a == k) = false := by simpa using ha
        have h2 : ¬k = keyf a := fun h => ha h.symm
        simp [List.find?, h1, h2, Function.update_apply]

theorem student_meta_fold (hasSis : Bool) :
    ∀ (l : List (String × CsvRow)) (m₀ : String → Option MetaEntry) (k : String),
      (l.foldl
          (fun (m : String → Option MetaEntry) (p : String × CsvRow) =>
            Function.update m p.1
              (some ⟨(rowKeyFields hasSis p.2).1, (rowKeyFields hasSis p.2).2⟩)) m₀) k =
        match l.reverse.find? (fun p => p.1 == k) with
        | some p => some ⟨(rowKeyFields hasSis p.2).1, (rowKeyFields hasSis p.2).2⟩
        | none => m₀ k := by
  intro l
  induction l with
  | nil =>
    intro m₀ k
    simp
  | cons a rest ih =>
    intro m₀ k
    simp only [List.foldl_cons, List.reverse_cons, List.find?_append, ih]
    cases hf : rest.reverse.find? (fun p => p.1 == k) with
    | some q => simp
    | none =>
      by_cases ha : a.1 = k
      · simp [List.find?, ha, Function.update_apply]
      · have h1 : (a.1 == k) = false := by simpa using ha
        have h2 : ¬k = a.1 := fun h => ha h.symm
        simp [List.find?, h1, h2, Function.update_apply]

theorem student_meta_apply (hasSis : Bool) (rows : List CsvRow) (k : String) :
    student_meta hasSis rows k =
      match (keyedRows hasSis rows).reverse.find? (fun p => p.1 == k) with
      | some p => some ⟨(rowKeyFields hasSis p.2).1, (rowKeyFields hasSis p.2).2⟩
      | none => none := by
  unfold student_meta
  exact student_meta_fold hasSis (keyedRows hasSis rows) (fun _ => none) k

/-! ## Claim C9: key-format facts -/

theorem digitChar_ne_hash (n : Nat) : Nat.digitChar n ≠ '#' := by
  by_cases h : n < 16
  · interval_cases n <;> decide
  · simp only [Nat.digitChar]
    repeat rw [if_neg (by omega)]
    decide

theorem toDigitsCore_hash :
    ∀ (fuel n : Nat) (acc : List Char), '#' ∉ acc → '#' ∉ Nat.toDigitsCore 10 fuel n acc := by
  intro fuel
  induction fuel with
  | zero =>
    intro n acc h
    simpa [Nat.toDigitsCore] using h
  | succ f ih =>
    intro n acc h
    have hd : '#' ∉ (Nat.digitChar (n % 10) :: acc) := by
      intro hm
      rcases List.mem_cons.mp hm with hm | hm
      · exact digitChar_ne_hash (n % 10) hm.symm
      · exact h hm
    simp only [Nat.toDigitsCore]
    split
    · exact hd
    · exact ih _ _ hd

theorem hash_not_mem_toString (n : Nat) : '#' ∉ (toString n).data := by
  show '#' ∉ (Nat.toDigits 10 n).asString.data
  show '#' ∉ Nat.toDigits 10 n
  rw [Nat.toDigits]
  exact toDigitsCore_hash (n + 1) n [] (by simp)

theorem sep_split_unique :
    ∀ (as as' bs bs' : List Char), '#' ∉ as → '#' ∉ as' →
      as ++ '#' :: bs = as' ++ '#' :: bs' → as = as' ∧ bs = bs' := by
  intro as
  induction as with
  | nil =>
    intro as' bs bs' _ h2 h
    cases as' with
    | nil =>
      simp only [List.nil_append, List.cons.injEq] at h
      exact ⟨rfl, h.2⟩
    | cons c t =>
      simp only [List.nil_append, List.cons_append, List.cons.injEq] at h
      exact absurd (List.mem_cons.mpr (Or.inl h.1)) h2
  | cons a t ih =>
    intro as' bs bs' h1 h2 h
    cases as' with
    | nil =>
      simp only [List.nil_append, List.cons_append, List.cons.injEq] at h
      exact absurd (List.mem_cons.mpr (Or.inl h.1.symm)) h1
    | cons c t' =>
      simp only [List.cons_append, List.cons.injEq] at h
      obtain ⟨hac, hrest⟩ := h
      subst hac
      have h1' : '#' ∉ t := fun hm => h1 (List.mem_cons_of_mem _ hm)
      have h2' : '#' ∉ t' := fun hm => h2 (List.mem_cons_of_mem _ hm)
      obtain ⟨e1, e2⟩ := ih t' bs bs' h1' h2' hrest
      exact ⟨by rw [e1], e2⟩

theorem str_append_left_cancel {a b c : String} (h : a ++ b = a ++ c) : b = c := by
  have hd := congrArg String.data h
  simp only [String.data_append] at hd
  exact String.ext_iff.mpr (List.append_cancel_left hd)

theorem sid_key_inj {a b : String} (h : "sid:" ++ a = "sid:" ++ b) : a = b :=
  str_append_left_cancel h

theorem sid_key_ne_name_key {a b : String} (h : "sid:" ++ a = "name:" ++ b) : False := by
  have hd := congrArg String.data h
  simp only [String.data_append] at hd
  have hh : ('s' : Char) = 'n' := by
    have := congrArg (fun l => l.head?) hd
    simpa using this
  exact absurd hh (by decide)

theorem name_key_inj {n n' : String} {j j' : Nat}
    (h : "name:" ++ n ++ "#" ++ toString j = "name:" ++ n' ++ "#" ++ toString j') :
    n = n' := by
  have hd := congrArg String.data h
  simp only [String.data_append, List.append_assoc] at hd
  have hd2 := List.append_cancel_left hd
  simp only [List.singleton_append] at hd2
  have hr := congrArg List.reverse hd2
  simp only [List.reverse_append, List.reverse_cons, List.append_assoc,
    List.singleton_append] at hr
  have hnj : '#' ∉ (toString j).data.reverse := fun hm =>
    hash_not_mem_toString j (List.mem_reverse.mp hm)
  have hnj' : '#' ∉ (toString j').data.reverse := fun hm =>
    hash_not_mem_toString j' (List.mem_reverse.mp hm)
  obtain ⟨-, e2⟩ := sep_split_unique _ _ _ _ hnj hnj' hr
  exact String.ext_iff.mpr (List.reverse_injective e2)

/-! ## Claim C9: metadata agreement and the stability theorem -/

theorem pairKeyed_single_valued (pairs : List (String × String))
    (hcons : ∀ p ∈ pairs, ∀ q ∈ pairs, p.2 ≠ "" → p.2 = q.2 → p.1 = q.1) :
    ∀ e ∈ pairKeyed pairs (fun _ => 0), ∀ e' ∈ pairKeyed pairs (fun _ => 0),
      e.1 = e'.1 → e.2 = e'.2 := by
  intro e he e' he' hk
  obtain ⟨hm, hsh⟩ := pairKeyed_mem pairs _ he
  obtain ⟨hm', hsh'⟩ := pairKeyed_mem pairs _ he'
  rcases hsh with ⟨hs, hkey⟩ | ⟨hs, j, hkey⟩ <;>
    rcases hsh' with ⟨hs', hkey'⟩ | ⟨hs', j', hkey'⟩
  · have hsid : e.2.2 = e'.2.2 := sid_key_inj (by rw [← hkey, hk, hkey'])
    have hname : e.2.1 = e'.2.1 :=
      hcons (e.2.1, e.2.2) hm (e'.2.1, e'.2.2) hm' hs hsid
    exact Prod.ext_iff.mpr ⟨hname, hsid⟩
  · have hchain : "sid:" ++ e.2.2 = "name:" ++ (e'.2.1 ++ ("#" ++ toString j')) := by
      rw [← String.append_assoc, ← String.append_assoc, ← hkey', ← hk, hkey]
    exact (sid_key_ne_name_key hchain).elim
  · have hchain : "sid:" ++ e'.2.2 = "name:" ++ (e.2.1 ++ ("#" ++ toString j)) := by
      rw [← String.append_assoc, ← String.append_assoc, ← hkey, hk, hkey']
    exact (sid_key_ne_name_key hchain).elim
  · have hn : e.2.1 = e'.2.1 := name_key_inj (by rw [← hkey, hk, hkey'])
    exact Prod.ext_iff.mpr ⟨hn, hs.trans hs'.symm⟩

theorem meta_apply_triples (hasSis : Bool) (rows : List CsvRow) (k : String) :
    student_meta hasSis rows k =
      match (pairKeyed ((retainedRows rows).map (rowKeyFields hasSis))
          (fun _ => 0)).reverse.find? (fun e => e.1 == k) with
      | some e => some ⟨e.2.1, e.2.2⟩
      | none => none := by
  rw [student_meta_apply]
  rw [show pairKeyed ((retainedRows rows).map (rowKeyFields hasSis)) (fun _ => 0) =
      (keyedRows hasSis rows).map (fun p => (p.1, rowKeyFields hasSis p.2)) from
    (assignKeys_pairKeyed hasSis (retainedRows rows) (fun _ => 0)).symm]
  rw [← List.map_reverse, List.find?_map]
  cases hf : (keyedRows hasSis rows).reverse.find?
      ((fun e => e.1 == k) ∘ fun p => (p.1, rowKeyFields hasSis p.2)) with
  | none =>
    have hf2 : (keyedRows hasSis rows).reverse.find? (fun p => p.1 == k) = none := hf
    rw [hf2]
    rfl
  | some p =>
    have hf2 : (keyedRows hasSis rows).reverse.find? (fun p => p.1 == k) = some p := hf
    rw [hf2]
    rfl

theorem student_meta_perm_eq (hasSis : Bool) (rows1 rows2 : List CsvRow)
    (hperm : ((retainedRows rows1).map (rowKeyFields hasSis)).Perm
      ((retainedRows rows2).map (rowKeyFields hasSis)))
    (hcons : ∀ p ∈ (retainedRows rows1).map (rowKeyFields hasSis),
      ∀ q ∈ (retainedRows rows1).map (rowKeyFields hasSis),
        p.2 ≠ "" → p.2 = q.2 → p.1 = q.1) :
    student_meta hasSis rows1 = student_meta hasSis rows2 := by
  funext k
  rw [meta_apply_triples, meta_apply_triples]
  have hT := pairKeyed_perm hperm (fun _ => 0)
  cases h1 : (pairKeyed ((retainedRows rows1).map (rowKeyFields hasSis))
      (fun _ => 0)).reverse.find? (fun e => e.1 == k) with
  | none =>
    cases h2 : (pairKeyed ((retainedRows rows2).map (rowKeyFields hasSis))
        (fun _ => 0)).reverse.find? (fun e => e.1 == k) with
    | none => rfl
    | some e =>
      have he1 : e ∈ pairKeyed ((retainedRows rows1).map (rowKeyFields hasSis))
          (fun _ => 0) :=
        hT.symm.mem_iff.mp (List.mem_reverse.mp (List.mem_of_find?_eq_some h2))
      have := List.find?_eq_none.mp h1 e (List.mem_reverse.mpr he1)
      exact absurd (List.find?_some h2) this
  | some e =>
    have he1 : e ∈ pairKeyed ((retainedRows rows1).map (rowKeyFields hasSis))
        (fun _ => 0) :=
      List.mem_reverse.mp (List.mem_of_find?_eq_some h1)
    have hkey : e.1 = k := by simpa using List.find?_some h1
    cases h2 : (pairKeyed ((retainedRows rows2).map (rowKeyFields hasSis))
        (fun _ => 0)).reverse.find? (fun e => e.1 == k) with
    | none =>
      have he2 : e ∈ pairKeyed ((retainedRows rows2).map (rowKeyFields hasSis))
          (fun _ => 0) := hT.mem_iff.mp he1
      have := List.find?_eq_none.mp h2 e (List.mem_reverse.mpr he2)
      exact absurd (List.find?_some h1) this
    | some e' =>
      have he1' : e' ∈ pairKeyed ((retainedRows rows1).map (rowKeyFields hasSis))
          (fun _ => 0) :=
        hT.mem_iff.mpr (List.mem_reverse.mp (List.mem_of_find?_eq_some h2))
      have hkey' : e'.1 = k := by simpa using List.find?_some h2
      have hval := pairKeyed_single_valued _ hcons e he1 e' he1' (hkey.trans hkey'.symm)
      show (some ⟨e.2.1, e.2.2⟩ : Option MetaEntry) = some ⟨e'.2.1, e'.2.2⟩
      rw [hval]

/-- C9 counterexample: two snapshots whose retained rows carry the same
multiset of (name, externalId) pairs and differ only in row order can
produce different sorted roster orders when two rows share an id: the
metadata stored for the shared key `sid:5` keeps the last row's name, which
depends on row order and drives the sort. -/
theorem roster_identity_stable_cex :
    ((retainedRows [⟨"Aa", "5", []⟩, ⟨"Zz", "5", []⟩, ⟨"Mm", "", []⟩]).map
        (rowKeyFields true)).Perm
      ((retainedRows [⟨"Zz", "5", []⟩, ⟨"Aa", "5", []⟩, ⟨"Mm", "", []⟩]).map
        (rowKeyFields true)) ∧
    roster_keys true [⟨"Zz", "5", []⟩, ⟨"Aa", "5", []⟩, ⟨"Mm", "", []⟩] =
      ["sid:5", "sid:5", "name:Mm#1"] ∧
    roster_keys true [⟨"Aa", "5", []⟩, ⟨"Zz", "5", []⟩, ⟨"Mm", "", []⟩] =
      ["name:Mm#1", "sid:5", "sid:5"] := by
  refine ⟨?_, by decide, by decide⟩
  show (("Aa", "5") :: ("Zz", "5") :: [("Mm", "")]).Perm
    (("Zz", "5") :: ("Aa", "5") :: [("Mm", "")])
  exact .swap _ _ _

/-- C9 amended: two snapshots whose retained rows carry identical multisets
of (name, externalId) pairs and differ only in row order produce the same
sorted roster order (hence the same set of keys), provided retained rows
sharing the same nonempty external id all carry the same name (the code
keeps only the last such row's metadata, which is order-dependent
otherwise). -/
theorem roster_identity_stable (hasSis : Bool) (rows1 rows2 : List CsvRow)
    (hperm : ((retainedRows rows1).map (rowKeyFields hasSis)).Perm
      ((retainedRows rows2).map (rowKeyFields hasSis)))
    (hcons : ∀ p ∈ (retainedRows rows1).map (rowKeyFields hasSis),
      ∀ q ∈ (retainedRows rows1).map (rowKeyFields hasSis),
        p.2 ≠ "" → p.2 = q.2 → p.1 = q.1) :
    roster_keys hasSis rows1 = roster_keys hasSis rows2 ∧
      ∀ k, (k ∈ roster_keys hasSis rows1 ↔ k ∈ roster_keys hasSis rows2) := by
  have hmeta := student_meta_perm_eq hasSis rows1 rows2 hperm hcons
  have hk1 : (keyedRows hasSis rows1).map Prod.fst =
      (pairKeyed ((retainedRows rows1).map (rowKeyFields hasSis)) (fun _ => 0)).map
        Prod.fst := by
    rw [← assignKeys_pairKeyed hasSis (retainedRows rows1) (fun _ => 0), List.map_map]
    rfl
  have hk2 : (keyedRows hasSis rows2).map Prod.fst =
      (pairKeyed ((retainedRows rows2).map (rowKeyFields hasSis)) (fun _ => 0)).map
        Prod.fst := by
    rw [← assignKeys_pairKeyed hasSis (retainedRows rows2) (fun _ => 0), List.map_map]
    rfl
  have hkeysperm : ((keyedRows hasSis rows1).map Prod.fst).Perm
      ((keyedRows hasSis rows2).map Prod.fst) := by
    rw [hk1, hk2]
    exact (pairKeyed_perm hperm (fun _ => 0)).map Prod.fst
  have heq : roster_keys hasSis rows1 = roster_keys hasSis rows2 := by
    unfold roster_keys
    rw [← hmeta]
    haveI : IsAntisymm String
        (fun a b => rosterLe (student_meta hasSis rows1) a b = true) :=
      ⟨fun a b h1 h2 => rosterLe_antisymm (student_meta hasSis rows1) h1 h2⟩
    apply List.eq_of_perm_of_sorted
      (r := fun a b => rosterLe (student_meta hasSis rows1) a b = true)
    · exact ((sortByLe_perm _ _).trans hkeysperm).trans (sortByLe_perm _ _).symm
    · exact sortByLe_pairwise _ (rosterLe_total _)
        (fun h1 h2 => rosterLe_trans _ h1 h2) _
    · exact sortByLe_pairwise _ (rosterLe_total _)
        (fun h1 h2 => rosterLe_trans _ h1 h2) _
  exact ⟨heq, fun k => by rw [heq]⟩

/-- Witness for C9 (amended): two concrete two-row snapshots in swapped
order, with distinct ids, produce the same sorted roster. -/
theorem roster_identity_stable_witness :
    roster_keys true [⟨"Doe, Jane", "4421", ["1"]⟩, ⟨"Smith, Al", "7", []⟩] =
      roster_keys true [⟨"Smith, Al", "7", []⟩, ⟨"Doe, Jane", "4421", ["1"]⟩] ∧
      ∀ k, (k ∈ roster_keys true [⟨"Doe, Jane", "4421", ["1"]⟩, ⟨"Smith, Al", "7", []⟩] ↔
        k ∈ roster_keys true [⟨"Smith, Al", "7", []⟩, ⟨"Doe, Jane", "4421", ["1"]⟩]) :=
  roster_identity_stable true
    [⟨"Doe, Jane", "4421", ["1"]⟩, ⟨"Smith, Al", "7", []⟩]
    [⟨"Smith, Al", "7", []⟩, ⟨"Doe, Jane", "4421", ["1"]⟩]
    (show (("Jane Doe", "4421") :: [("Al Smith", "7")]).Perm
        (("Al Smith", "7") :: [("Jane Doe", "4421")]) from
      .trans (.swap _ _ _) (.refl _))
    (by decide)
